import Mathlib

/-!
Verification development for the AgentTrace scanner core: the permission
and risk inference engine, the language detectors, and the manifest
assembler (deduplication, filtering, summarization, ordering).

Machine strings are modelled by Lean `String`; the JavaScript regular
expressions and object semantics used by the code are embedded explicitly
where a claim depends on them.
-/

namespace AgentTrace

/-- Permission levels for tools (types/index.ts). -/
inductive Permission where
  | READ | WRITE | DELETE | EXECUTE | OUTPUT | UNKNOWN
deriving DecidableEq, Repr

/-- Risk levels based on permission (types/index.ts). -/
inductive RiskLevel where
  | LOW | MEDIUM | HIGH
deriving DecidableEq, Repr

/-- Supported frameworks (types/index.ts). -/
inductive Framework where
  | mcp | mcpConfig | langraph | crewai | autogen | fastmcp | custom | unknown
deriving DecidableEq, Repr

/-! ## Permission inference engine (inference/permissions.ts) -/

def READ_KEYWORDS : List String :=
  ["get", "read", "fetch", "list", "search", "query", "find", "lookup",
   "retrieve", "show", "display", "view", "describe", "check", "inspect",
   "count", "exists", "has", "is", "can", "load", "parse", "extract",
   "select", "filter", "sort", "browse", "scan", "analyze", "validate"]

def WRITE_KEYWORDS : List String :=
  ["create", "add", "insert", "write", "update", "set", "put", "post",
   "save", "store", "upload", "push", "modify", "edit", "change", "patch",
   "append", "register", "submit", "send", "publish", "configure", "enable",
   "disable", "toggle", "assign", "allocate", "grant", "revoke"]

def DELETE_KEYWORDS : List String :=
  ["delete", "remove", "drop", "destroy", "truncate", "clear", "purge",
   "wipe", "erase", "uninstall", "terminate", "kill", "stop", "abort",
   "cancel", "revoke", "reset", "clean", "flush", "invalidate"]

def EXECUTE_KEYWORDS : List String :=
  ["execute", "run", "eval", "shell", "exec", "spawn", "invoke", "call",
   "trigger", "start", "launch", "deploy", "install", "migrate", "apply",
   "process", "perform", "do", "action", "command", "script", "code"]

def OUTPUT_KEYWORDS : List String :=
  ["display", "show", "render", "output", "print", "format", "present",
   "visualize", "chart", "graph", "report", "export", "download"]

/-- The permission→risk table PERMISSION_RISK_MAP and inferRisk. -/
def inferRisk : Permission → RiskLevel
  | .READ => .LOW
  | .OUTPUT => .LOW
  | .WRITE => .MEDIUM
  | .DELETE => .HIGH
  | .EXECUTE => .HIGH
  | .UNKNOWN => .MEDIUM

/-- The whitespace class of the JavaScript regexes used by tokenize
(restricted to the ASCII part; identifiers and descriptions are ASCII). -/
def jsWs (c : Char) : Bool :=
  c = ' ' || c = '\t' || c = '\n' || c = '\r' || c = '\x0b' || c = '\x0c'

/-- content.replace of the pattern lower-then-upper with the two letters
separated by a space.  The scan never revisits the consumed upper-case
letter, but since an upper-case letter can never begin a match the
character-by-character scan below computes the same string. -/
def camelSplit : List Char → List Char
  | [] => []
  | [c] => [c]
  | c1 :: c2 :: rest =>
    if c1.isLower && c2.isUpper then c1 :: ' ' :: camelSplit (c2 :: rest)
    else c1 :: camelSplit (c2 :: rest)

/-- replace of underscore and hyphen characters by a space. -/
def usToSpace (c : Char) : Char := if c = '_' || c = '-' then ' ' else c

/-- Generic split of a character list at every character satisfying p,
keeping empty pieces (the behaviour of JavaScript split). -/
def splitPred (p : Char → Bool) (cs : List Char) : List (List Char) :=
  match cs with
  | [] => [[]]
  | c :: rest =>
    if p c then [] :: splitPred p rest
    else match splitPred p rest with
      | [] => [[c]]
      | w :: ws => (c :: w) :: ws

/-- split on each whitespace character (JavaScript split with a one-or-more
whitespace pattern, followed by the filter dropping empty pieces, computes
the same word list as splitting at every whitespace character and dropping
the empty pieces). -/
def splitWs (cs : List Char) : List (List Char) := splitPred jsWs cs

/-- tokenize (inference/permissions.ts): split by camelCase, snake_case,
kebab-case and spaces, lowercase, split on whitespace, drop empties. -/
def tokenize (text : String) : List String :=
  ((splitWs (((camelSplit text.data).map usToSpace).map Char.toLower)).map
    (fun w => String.mk w)).filter (fun s => s ≠ "")

/-- token.startsWith(keyword), on the character lists. -/
def strStartsWith (s pre : String) : Bool := pre.data.isPrefixOf s.data

/-- token.endsWith(keyword), on the character lists. -/
def strEndsWith (s suf : String) : Bool := suf.data.isSuffixOf s.data

/-- matchesKeywords (inference/permissions.ts). -/
def matchesKeywords (tokens : List String) (keywords : List String) : Bool :=
  tokens.any fun token =>
    keywords.any fun keyword =>
      token == keyword || strStartsWith token keyword || strEndsWith token keyword

/-- inferPermission (inference/permissions.ts). -/
def inferPermission (name : String) (description : Option String) : Permission :=
  let nameTokens := tokenize name
  let descTokens := match description with
    | some d => tokenize d
    | none => []
  let allTokens := nameTokens ++ descTokens
  if matchesKeywords allTokens DELETE_KEYWORDS then .DELETE
  else if matchesKeywords allTokens EXECUTE_KEYWORDS then .EXECUTE
  else if matchesKeywords allTokens WRITE_KEYWORDS then .WRITE
  else if matchesKeywords allTokens OUTPUT_KEYWORDS then .OUTPUT
  else if matchesKeywords allTokens READ_KEYWORDS then .READ
  else .UNKNOWN

/-! Spec-side formulation of the classifier, written from the
words of the specification: the five keyword tables are evaluated in the fixed
priority order DELETE, EXECUTE, WRITE, OUTPUT, READ; the first table with
any matching token determines the permission, no match yields UNKNOWN. -/

/-- The tables in the priority order of the specification. -/
def priorityTables : List (List String × Permission) :=
  [(DELETE_KEYWORDS, .DELETE), (EXECUTE_KEYWORDS, .EXECUTE),
   (WRITE_KEYWORDS, .WRITE), (OUTPUT_KEYWORDS, .OUTPUT),
   (READ_KEYWORDS, .READ)]

/-- Classifier as the specification states it. -/
def inferPermissionSpec (name : String) (description : Option String) : Permission :=
  let allTokens := tokenize name ++ (match description with
    | some d => tokenize d
    | none => [])
  match priorityTables.find? (fun tp => matchesKeywords allTokens tp.1) with
  | some tp => tp.2
  | none => .UNKNOWN

/-! ## Data model (types/index.ts)

JavaScript runtime values that the code passes through unchecked (the
`unknown`-typed fields, and the raw configuration values forwarded by the
configuration detector) are modelled by an explicit JSON value type. -/

/-- A JSON value.  Numbers keep their source lexeme: the scanner never
computes with them, it only stores and forwards them. -/
inductive JsonVal where
  | null
  | bool (b : Bool)
  | num (raw : String)
  | str (s : String)
  | arr (elems : List JsonVal)
  | obj (fields : List (String × JsonVal))

/-- Parameter schema for tool inputs (types/index.ts). -/
structure ParameterSchema where
  type : String
  description : Option String
  required : Option Bool
  dflt : Option JsonVal

/-- A detected AI tool (types/index.ts). -/
structure Tool where
  name : String
  framework : Framework
  source : String
  line : Nat
  permission : Permission
  risk : RiskLevel
  description : Option String
  parameters : Option (List (String × ParameterSchema))
  version : Option String

/-- A detected AI agent (types/index.ts). -/
structure Agent where
  name : String
  framework : Framework
  source : String
  line : Nat
  tools : List String
  description : Option String
  config : Option (List (String × JsonVal))

/-- An MCP server record (types/index.ts).  The declared command type is
string; the configuration detector forwards the JSON values of the
command, args and env fields unchecked, which the model keeps as JSON. -/
structure McpServer where
  name : String
  command : JsonVal
  args : Option JsonVal
  env : Option JsonVal
  source : String
  tools : Option (List String)

/-- Result from a detector (types/index.ts). -/
structure DetectorResult where
  tools : List Tool
  agents : List Agent
  mcpServers : List McpServer

/-- BaseDetector.emptyResult (detectors/base.ts). -/
def emptyResult : DetectorResult := { tools := [], agents := [], mcpServers := [] }

/-- File info passed to detectors (types/index.ts). -/
structure FileInfo where
  path : String
  relativePath : String
  extension : String
  content : String

/-- Summary counters keyed by permission (the fixed-key record built by
createSummary). -/
structure PermissionCounts where
  READ : Nat
  WRITE : Nat
  DELETE : Nat
  EXECUTE : Nat
  OUTPUT : Nat
  UNKNOWN : Nat

/-- Summary counters keyed by risk level. -/
structure RiskCounts where
  LOW : Nat
  MEDIUM : Nat
  HIGH : Nat

/-- Summary statistics for the scan (types/index.ts).  The by_framework
record is a string-keyed JavaScript object, modelled as an association
list in key insertion order. -/
structure ScanSummary where
  total_tools : Nat
  total_agents : Nat
  total_mcp_servers : Nat
  files_scanned : Nat
  by_framework : List (String × Nat)
  by_permission : PermissionCounts
  by_risk : RiskCounts

/-- Complete scan manifest output (types/index.ts). -/
structure Manifest where
  version : String
  scanned_at : String
  scanned_path : String
  scan_duration_ms : Nat
  summary : ScanSummary
  tools : List Tool
  agents : List Agent
  mcp_servers : List McpServer

/-- The framework tag strings of the union type (types/index.ts). -/
def frameworkTag : Framework → String
  | .mcp => "mcp"
  | .mcpConfig => "mcp-config"
  | .langraph => "langraph"
  | .crewai => "crewai"
  | .autogen => "autogen"
  | .fastmcp => "fastmcp"
  | .custom => "custom"
  | .unknown => "unknown"

/-! ## Manifest assembler (output/manifest.ts) -/

def MANIFEST_VERSION : String := "1.0.0"

/-- Generic first-occurrence deduplication with a seen set of keys,
the shape shared by deduplicateTools, deduplicateAgents and
deduplicateMcpServers. -/
def dedupeByKey (key : α → String) (seen : List String) : List α → List α
  | [] => []
  | x :: xs =>
    if seen.contains (key x) then dedupeByKey key seen xs
    else x :: dedupeByKey key (key x :: seen) xs

/-- deduplicateTools, keyed by name:source. -/
def deduplicateTools (tools : List Tool) : List Tool :=
  dedupeByKey (fun t => t.name ++ ":" ++ t.source) [] tools

/-- deduplicateAgents, keyed by name:source. -/
def deduplicateAgents (agents : List Agent) : List Agent :=
  dedupeByKey (fun a => a.name ++ ":" ++ a.source) [] agents

/-- deduplicateMcpServers, keyed by name alone. -/
def deduplicateMcpServers (servers : List McpServer) : List McpServer :=
  dedupeByKey (fun s => s.name) [] servers

/-- filterByFramework (output/manifest.ts). -/
def filterByFramework (tools : List Tool) (framework : String) : List Tool :=
  tools.filter (fun t => frameworkTag t.framework == framework)

/-- filterByRisk (output/manifest.ts). -/
def filterByRisk (tools : List Tool) (risk : RiskLevel) : List Tool :=
  tools.filter (fun t => t.risk == risk)

/-- The riskOrder table of the tool comparator in createManifest. -/
def riskOrder : RiskLevel → Nat
  | .HIGH => 0
  | .MEDIUM => 1
  | .LOW => 2

/-- The sort key the tool comparator induces: risk rank first, then name. -/
def toolSortKey (t : Tool) : Nat × String := (riskOrder t.risk, t.name)

/-- Comparator outcome ≤ 0 on sort keys: strictly smaller risk rank, or
equal rank and name not larger (name comparison modelled by the code
point order on strings). -/
def keyLe (p q : Nat × String) : Prop := p.1 < q.1 ∨ (p.1 = q.1 ∧ p.2 ≤ q.2)

/-- Tool comparator of createManifest as a relation: a sorts no later
than b. -/
def toolLe (a b : Tool) : Prop := keyLe (toolSortKey a) (toolSortKey b)

/-- Name comparator used for agents. -/
def agentLe (a b : Agent) : Prop := a.name ≤ b.name

/-- Name comparator used for MCP servers. -/
def serverLe (a b : McpServer) : Prop := a.name ≤ b.name

instance : DecidableRel toolLe := fun a b => by
  unfold toolLe keyLe; exact inferInstance

instance : DecidableRel agentLe := fun a b => by
  unfold agentLe; exact inferInstance

instance : DecidableRel serverLe := fun a b => by
  unfold serverLe; exact inferInstance

/-- One step of the by_framework counting loop: increment the entry of a
key in a JavaScript object modelled as an insertion-ordered association
list. -/
def bumpAssoc (m : List (String × Nat)) (k : String) : List (String × Nat) :=
  match m with
  | [] => [(k, 1)]
  | (k', v) :: rest => if k' = k then (k', v + 1) :: rest else (k', v) :: bumpAssoc rest k

/-- One step of the by_permission counting loop. -/
def bumpPermission (m : PermissionCounts) : Permission → PermissionCounts
  | .READ => { m with READ := m.READ + 1 }
  | .WRITE => { m with WRITE := m.WRITE + 1 }
  | .DELETE => { m with DELETE := m.DELETE + 1 }
  | .EXECUTE => { m with EXECUTE := m.EXECUTE + 1 }
  | .OUTPUT => { m with OUTPUT := m.OUTPUT + 1 }
  | .UNKNOWN => { m with UNKNOWN := m.UNKNOWN + 1 }

/-- One step of the by_risk counting loop. -/
def bumpRisk (m : RiskCounts) : RiskLevel → RiskCounts
  | .LOW => { m with LOW := m.LOW + 1 }
  | .MEDIUM => { m with MEDIUM := m.MEDIUM + 1 }
  | .HIGH => { m with HIGH := m.HIGH + 1 }

/-- createSummary (output/manifest.ts). -/
def createSummary (result : DetectorResult) (filesScanned : Nat) : ScanSummary :=
  { total_tools := result.tools.length
    total_agents := result.agents.length
    total_mcp_servers := result.mcpServers.length
    files_scanned := filesScanned
    by_framework := result.tools.foldl (fun m t => bumpAssoc m (frameworkTag t.framework)) []
    by_permission := result.tools.foldl (fun m t => bumpPermission m t.permission) ⟨0, 0, 0, 0, 0, 0⟩
    by_risk := result.tools.foldl (fun m t => bumpRisk m t.risk) ⟨0, 0, 0⟩ }

/-- createManifest (output/manifest.ts).  The scanned_at timestamp is an
effect of the clock and enters as the parameter scannedAt.  The
JavaScript sort is a stable comparison sort; with this consistent
comparator any stable sort returns the insertion sort result. -/
def createManifest (result : DetectorResult) (scannedPath : String)
    (filesScanned : Nat) (durationMs : Nat) (scannedAt : String) : Manifest :=
  { version := MANIFEST_VERSION
    scanned_at := scannedAt
    scanned_path := scannedPath
    scan_duration_ms := durationMs
    summary := createSummary result filesScanned
    tools := result.tools.insertionSort toolLe
    agents := result.agents.insertionSort agentLe
    mcp_servers := result.mcpServers.insertionSort serverLe }

/-- The post-processing the scan command applies before createManifest
(commands/scan.ts): deduplicate the three collections, then apply the
optional framework and risk filters to the tools. -/
def applyScanFilters (result : DetectorResult) (frameworkFilter : Option String)
    (riskFilter : Option RiskLevel) : DetectorResult :=
  let r1 : DetectorResult :=
    { tools := deduplicateTools result.tools
      agents := deduplicateAgents result.agents
      mcpServers := deduplicateMcpServers result.mcpServers }
  let r2 : DetectorResult := match frameworkFilter with
    | some fw => { r1 with tools := filterByFramework r1.tools fw }
    | none => r1
  match riskFilter with
  | some r => { r2 with tools := filterByRisk r2.tools r }
  | none => r2

/-- Sum of the values of a by_framework association list. -/
def assocTotal (m : List (String × Nat)) : Nat := (m.map (fun kv => kv.2)).sum

/-- Sum of the six by_permission buckets. -/
def permTotal (m : PermissionCounts) : Nat :=
  m.READ + m.WRITE + m.DELETE + m.EXECUTE + m.OUTPUT + m.UNKNOWN

/-- Sum of the three by_risk buckets. -/
def riskTotal (m : RiskCounts) : Nat := m.LOW + m.MEDIUM + m.HIGH

/-! ## JSON (JSON.parse as used by the configuration detector)

A standard JSON reader over the character list, with explicit fuel; the
fuel passed by parseJson is an upper bound on the recursion depth, so it
never runs out on any input. -/

/-- The insignificant whitespace of JSON. -/
def jsonWsChar (c : Char) : Bool := c = ' ' || c = '\t' || c = '\n' || c = '\r'

def skipJsonWs (cs : List Char) : List Char := cs.dropWhile jsonWsChar

def isJsonDigit (c : Char) : Bool := '0' ≤ c ∧ c ≤ '9'

def hexVal (c : Char) : Option Nat :=
  if '0' ≤ c ∧ c ≤ '9' then some (c.toNat - '0'.toNat)
  else if 'a' ≤ c ∧ c ≤ 'f' then some (c.toNat - 'a'.toNat + 10)
  else if 'A' ≤ c ∧ c ≤ 'F' then some (c.toNat - 'A'.toNat + 10)
  else none

/-- Read the body of a JSON string after the opening quote, handling the
escape sequences; returns the decoded characters and the rest after the
closing quote. -/
def parseStringBody (fuel : Nat) (cs : List Char) : Option (List Char × List Char) :=
  match fuel, cs with
  | 0, _ => none
  | _, [] => none
  | fuel + 1, c :: rest =>
    if c = '"' then some ([], rest)
    else if c = '\\' then
      match rest with
      | [] => none
      | e :: rest2 =>
        let decoded : Option (Char × List Char) :=
          if e = '"' then some ('"', rest2)
          else if e = '\\' then some ('\\', rest2)
          else if e = '/' then some ('/', rest2)
          else if e = 'b' then some ('\x08', rest2)
          else if e = 'f' then some ('\x0c', rest2)
          else if e = 'n' then some ('\n', rest2)
          else if e = 'r' then some ('\r', rest2)
          else if e = 't' then some ('\t', rest2)
          else if e = 'u' then
            match rest2 with
            | h1 :: h2 :: h3 :: h4 :: rest3 =>
              match hexVal h1, hexVal h2, hexVal h3, hexVal h4 with
              | some a, some b, some c3, some d =>
                some (Char.ofNat (((a * 16 + b) * 16 + c3) * 16 + d), rest3)
              | _, _, _, _ => none
            | _ => none
          else none
        match decoded with
        | some (ch, rest3) =>
          match parseStringBody fuel rest3 with
          | some (tail, fin) => some (ch :: tail, fin)
          | none => none
        | none => none
    else if c.toNat < 32 then none
    else
      match parseStringBody fuel rest with
      | some (tail, fin) => some (c :: tail, fin)
      | none => none

/-- Read a JSON number lexeme (sign, integer part, optional fraction and
exponent), returning it verbatim. -/
def parseNumberLexeme (cs : List Char) : Option (List Char × List Char) :=
  let (sign, cs1) := match cs with
    | '-' :: t => (['-'], t)
    | _ => (([] : List Char), cs)
  match cs1 with
  | [] => none
  | d :: _ =>
    if ¬ isJsonDigit d then none
    else
      let intPart := if d = '0' then [d] else cs1.takeWhile isJsonDigit
      let cs2 := cs1.drop intPart.length
      let (fracPart, cs3) := match cs2 with
        | '.' :: t =>
          let ds := t.takeWhile isJsonDigit
          if ds = [] then ([], cs2) else ('.' :: ds, t.drop ds.length)
        | _ => (([] : List Char), cs2)
      -- a dot not followed by a digit makes the number invalid
      match cs2 with
      | '.' :: t =>
        if t.takeWhile isJsonDigit = [] then none
        else finishExp (sign ++ intPart ++ fracPart) cs3
      | _ => finishExp (sign ++ intPart ++ fracPart) cs3
where
  finishExp (lex : List Char) (cs : List Char) : Option (List Char × List Char) :=
    match cs with
    | e :: t =>
      if e = 'e' ∨ e = 'E' then
        let (sgn, t2) := match t with
          | '+' :: u => (['+'], u)
          | '-' :: u => (['-'], u)
          | _ => (([] : List Char), t)
        let ds := t2.takeWhile isJsonDigit
        if ds = [] then none
        else some (lex ++ e :: sgn ++ ds, t2.drop ds.length)
      else some (lex, cs)
    | [] => some (lex, cs)

/-- JavaScript object member definition: a later duplicate key overwrites
the value but keeps the position of the first occurrence. -/
def setField (fields : List (String × JsonVal)) (k : String) (v : JsonVal) :
    List (String × JsonVal) :=
  match fields with
  | [] => [(k, v)]
  | (k', v') :: rest => if k' = k then (k', v) :: rest else (k', v') :: setField rest k v

/-- The three recursion entry points of the reader: one value, a
comma-separated element list, a comma-separated member list with its
accumulator. -/
inductive PReq where
  | value
  | elemList
  | memberList (acc : List (String × JsonVal))

/-- The matching results. -/
inductive PRes where
  | val (v : JsonVal)
  | elems (vs : List JsonVal)
  | members (fs : List (String × JsonVal))

/-- The JSON reader, one structural recursion on fuel over the three
entry points. -/
def parseStep (fuel : Nat) (req : PReq) (cs : List Char) :
    Option (PRes × List Char) :=
  match fuel with
  | 0 => none
  | fuel + 1 =>
    match req with
    | .value =>
      match skipJsonWs cs with
      | 'n' :: 'u' :: 'l' :: 'l' :: rest => some (.val .null, rest)
      | 't' :: 'r' :: 'u' :: 'e' :: rest => some (.val (.bool true), rest)
      | 'f' :: 'a' :: 'l' :: 's' :: 'e' :: rest => some (.val (.bool false), rest)
      | '"' :: rest =>
        match parseStringBody (rest.length + 1) rest with
        | some (body, fin) => some (.val (.str (String.mk body)), fin)
        | none => none
      | '[' :: rest =>
        match skipJsonWs rest with
        | ']' :: fin => some (.val (.arr []), fin)
        | _ =>
          match parseStep fuel .elemList rest with
          | some (.elems elems, fin) => some (.val (.arr elems), fin)
          | _ => none
      | '{' :: rest =>
        match skipJsonWs rest with
        | '}' :: fin => some (.val (.obj []), fin)
        | _ =>
          match parseStep fuel (.memberList []) rest with
          | some (.members fields, fin) => some (.val (.obj fields), fin)
          | _ => none
      | other =>
        match parseNumberLexeme other with
        | some (lex, fin) => some (.val (.num (String.mk lex)), fin)
        | none => none
    | .elemList =>
      match parseStep fuel .value cs with
      | some (.val v, rest) =>
        (match skipJsonWs rest with
          | ',' :: rest2 =>
            match parseStep fuel .elemList rest2 with
            | some (.elems vs, fin) => some (.elems (v :: vs), fin)
            | _ => none
          | ']' :: fin => some (.elems [v], fin)
          | _ => none)
      | _ => none
    | .memberList acc =>
      match skipJsonWs cs with
      | '"' :: rest =>
        match parseStringBody (rest.length + 1) rest with
        | none => none
        | some (keyChars, rest2) =>
          match skipJsonWs rest2 with
          | ':' :: rest3 =>
            match parseStep fuel .value rest3 with
            | some (.val v, rest4) =>
              let acc2 := setField acc (String.mk keyChars) v
              (match skipJsonWs rest4 with
                | ',' :: rest5 => parseStep fuel (.memberList acc2) rest5
                | '}' :: fin => some (.members acc2, fin)
                | _ => none)
            | _ => none
          | _ => none
      | _ => none

/-- Read one JSON value (leading whitespace allowed). -/
def parseValue (fuel : Nat) (cs : List Char) : Option (JsonVal × List Char) :=
  match parseStep fuel .value cs with
  | some (.val v, rest) => some (v, rest)
  | _ => none

/-- JSON.parse: the whole text must be one value with only trailing
whitespace. -/
def parseJson (s : String) : Option JsonVal :=
  match parseValue (2 * s.data.length + 4) s.data with
  | some (v, rest) => if skipJsonWs rest = [] then some v else none
  | none => none

/-- JavaScript truthiness of a JSON value (a number is falsy exactly when
its mantissa has no nonzero digit). -/
def jsTruthy : JsonVal → Bool
  | .null => false
  | .bool b => b
  | .num raw => (raw.data.takeWhile (fun c => c ≠ 'e' ∧ c ≠ 'E')).any
      (fun c => '1' ≤ c ∧ c ≤ '9')
  | .str s => s ≠ ""
  | .arr _ => true
  | .obj _ => true

/-- Property read obj.k: undefined (none) on anything without that member.
Member access on null throws in JavaScript; in the one place the detector
reads a member of a possibly-null value the throw is caught and produces
the empty result, which coincides with the fall-through this encoding
takes. -/
def getField : JsonVal → String → Option JsonVal
  | .obj fields, k => (fields.find? (fun kv => kv.1 == k)).map (fun kv => kv.2)
  | _, _ => none

/-- Object.entries.  On non-objects the object check in the loop body discards
every entry a string would contribute, so the empty list gives the same
detector output. -/
def entriesOf : JsonVal → List (String × JsonVal)
  | .obj fields => fields
  | _ => []

/-- x || y for the server-map extraction: keep x when truthy, else y. -/
def orTruthy (x : Option JsonVal) (els : JsonVal) : JsonVal :=
  match x with
  | some v => if jsTruthy v then v else els
  | none => els

/-- typeof v === 'object' together with truthiness (arrays pass, null
fails). -/
def isObjectLike : JsonVal → Bool
  | .obj _ => true
  | .arr _ => true
  | _ => false

/-! ## MCP configuration detector (detectors/mcp-config.ts) -/

def MCP_CONFIG_FILES : List String :=
  ["mcp_settings.json", "mcp.json", "claude_desktop_config.json"]

/-- relativePath.split on slash or backslash, then pop with empty-string
fallback. -/
def lastPathComponent (path : String) : String :=
  String.mk (((splitPred (fun c => c = '/' || c = '\\') path.data).getLast?).getD [])

/-- content.includes(needle). -/
def hasSub (needle : List Char) : List Char → Bool
  | [] => needle.isPrefixOf []
  | c :: t => needle.isPrefixOf (c :: t) || hasSub needle t

def strContains (hay needle : String) : Bool := hasSub needle.data hay.data

def strToLower (s : String) : String := String.mk (s.data.map Char.toLower)

/-- The three MCP_PATH_PATTERNS: each is anchored at the end of the path
only, and the two settings/config patterns are case-insensitive with an
optional underscore or hyphen separator. -/
def matchesMcpPathPattern (rel : String) : Bool :=
  strEndsWith rel ".cursor/mcp.json" || strEndsWith rel ".cursor\\mcp.json" ||
  (let lower := strToLower rel
   strEndsWith lower "mcpsettings.json" || strEndsWith lower "mcp_settings.json" ||
   strEndsWith lower "mcp-settings.json" ||
   strEndsWith lower "mcpconfig.json" || strEndsWith lower "mcp_config.json" ||
   strEndsWith lower "mcp-config.json")

/-- McpConfigDetector.isMcpConfigFile. -/
def isMcpConfigFile (file : FileInfo) : Bool :=
  let filename := lastPathComponent file.relativePath
  if MCP_CONFIG_FILES.contains filename then true
  else if matchesMcpPathPattern file.relativePath then true
  else
    strContains file.content "mcpServers" ||
      (strContains file.content "\x22servers\x22" && strContains file.content "\x22command\x22")

/-- McpConfigDetector.parseServerConfig: a truthy command field gives a
stdio server carrying the raw args and env values; otherwise a truthy url
field gives a server whose command is the url; otherwise no server. -/
def parseServerConfig (name : String) (config : JsonVal) (rel : String) : Option McpServer :=
  let urlForm : Option McpServer :=
    match getField config "url" with
    | some u =>
      if jsTruthy u then
        some { name := name, command := u, args := none, env := none,
               source := rel, tools := none }
      else none
    | none => none
  match getField config "command" with
  | some v =>
    if jsTruthy v then
      some { name := name, command := v, args := getField config "args",
             env := getField config "env", source := rel, tools := none }
    else urlForm
  | none => urlForm

/-- Truthiness of a member read from a config object: false when the
member is absent. -/
def truthyField (config : JsonVal) (k : String) : Bool :=
  match getField config k with
  | some v => jsTruthy v
  | none => false

/-- McpConfigDetector.detect. -/
def mcpConfigDetect (file : FileInfo) : DetectorResult :=
  if ¬ isMcpConfigFile file then emptyResult
  else
    match parseJson file.content with
    | none => emptyResult
    | some config =>
      let servers := orTruthy (getField config "mcpServers")
        (orTruthy (getField config "servers") (.obj []))
      let found := (entriesOf servers).filterMap fun kv =>
        if isObjectLike kv.2 then parseServerConfig kv.1 kv.2 file.relativePath
        else none
      { tools := [], agents := [], mcpServers := found }

/-! ## Tool constructors of the language detectors

Every Tool the detectors emit is built by one of these constructors
(python.ts createToolFromName, typescript.ts createToolFromName, the
three createTool call sites of go.ts, and the createTool defaults of
base.ts). -/

/-- base.ts createTool applied to a partial record carrying only the
required fields: the defaults. -/
def createToolDefault (name source : String) (line : Nat) : Tool :=
  { name := name, framework := .unknown, source := source, line := line,
    permission := .UNKNOWN, risk := .MEDIUM, description := none,
    parameters := none, version := none }

/-- python.ts createToolFromName; the docstring table of the current file
enters as an association list. -/
def pyCreateToolFromName (docstrings : List (String × String)) (name : String)
    (relativePath : String) (line : Nat) (framework : Framework) : Tool :=
  let description := (docstrings.find? (fun kv => kv.1 == name)).map (fun kv => kv.2)
  let permission := inferPermission name description
  let risk := inferRisk permission
  { name := name, framework := framework,
    source := relativePath ++ ":" ++ toString line, line := line,
    permission := permission, risk := risk, description := description,
    parameters := none, version := none }

/-- typescript.ts createToolFromName. -/
def tsCreateToolFromName (name : String) (relativePath : String) (line : Nat)
    (framework : Framework) (description : Option String) : Tool :=
  let permission := inferPermission name description
  let risk := inferRisk permission
  { name := name, framework := framework,
    source := relativePath ++ ":" ++ toString line, line := line,
    permission := permission, risk := risk, description := description,
    parameters := none, version := none }

/-- go.ts detectCapabilities: the tool built from one capability record. -/
def goCapabilityTool (name : String) (relativePath : String) (line : Nat)
    (version : Option String)
    (inputFields : Option (List (String × ParameterSchema))) : Tool :=
  let permission := inferPermission name none
  let risk := inferRisk permission
  { name := name, framework := .custom,
    source := relativePath ++ ":" ++ toString line, line := line,
    permission := permission, risk := risk, description := none,
    parameters := inputFields, version := version }

/-- go.ts detectToolRegistrations: the tool built from one register call. -/
def goRegistrationTool (name : String) (relativePath : String) (line : Nat) : Tool :=
  let permission := inferPermission name none
  let risk := inferRisk permission
  { name := name, framework := .custom,
    source := relativePath ++ ":" ++ toString line, line := line,
    permission := permission, risk := risk, description := none,
    parameters := none, version := none }

/-- go.ts detectToolFunctions: the tool built from one matched function
(name already cleaned and lowercased by the caller). -/
def goFunctionTool (name : String) (relativePath : String) (line : Nat) : Tool :=
  let permission := inferPermission name none
  let risk := inferRisk permission
  { name := name, framework := .custom,
    source := relativePath ++ ":" ++ toString line, line := line,
    permission := permission, risk := risk, description := none,
    parameters := none, version := none }

/-! ## JavaScript regular expressions with the g flag

python.ts and typescript.ts keep their import-detection patterns in a
module-level PATTERNS constant compiled with the g flag and call .test on
those shared objects.  A g-flagged regex object carries a mutable
lastIndex: .test searches from lastIndex, sets it to the match end on
success and resets it to 0 on failure.  The import patterns are
alternations of sequences of literals, one-or-more-whitespace, and
character-class repetitions, embedded below with exactly that shape and
the JavaScript leftmost-position, first-alternative, greedy-with-
backtracking match order. -/

/-- One piece of a pattern alternative. -/
inductive Atom where
  | lit (s : List Char)
  | plusCls (p : Char → Bool)
  | starCls (p : Char → Bool)

/-- The character class of the backslash-w escape. -/
def isWordChar (c : Char) : Bool := c.isAlpha || c.isDigit || c = '_'

/-- Match a sequence of atoms at the head of cs; some rest on success.
Quantified character classes are greedy and backtrack: the repetition
counts are tried from the maximal run length downward. -/
def matchAtoms (fuel : Nat) (atoms : List Atom) (cs : List Char) :
    Option (List Char) :=
  match fuel with
  | 0 => none
  | fuel + 1 =>
    match atoms with
    | [] => some cs
    | .lit s :: rest =>
      if s.isPrefixOf cs then matchAtoms fuel rest (cs.drop s.length) else none
    | .plusCls p :: rest =>
      let maxRun := (cs.takeWhile p).length
      (List.range maxRun).findSome? fun j =>
        matchAtoms fuel rest (cs.drop (maxRun - j))
    | .starCls p :: rest =>
      let maxRun := (cs.takeWhile p).length
      (List.range (maxRun + 1)).findSome? fun j =>
        matchAtoms fuel rest (cs.drop (maxRun - j))

/-- Try the alternatives in pattern order at one position. -/
def tryBranches (branches : List (List Atom)) (suffix : List Char) : Option Nat :=
  match branches with
  | [] => none
  | br :: more =>
    match matchAtoms (2 * suffix.length + 2 * br.length + 4) br suffix with
    | some rem => some rem.length
    | none => tryBranches more suffix

/-- Scan at most steps positions left to right from i; some matchEnd for
the first position where an alternative matches. -/
def searchAux (branches : List (List Atom)) (cs : List Char) (i : Nat) :
    Nat → Option Nat
  | 0 => none
  | steps + 1 =>
    match tryBranches branches (cs.drop i) with
    | some rem => some (cs.length - rem)
    | none => searchAux branches cs (i + 1) steps

/-- Scan positions i, i+1, ..., cs.length. -/
def searchFrom (branches : List (List Atom)) (cs : List Char) (i : Nat) :
    Option Nat :=
  if i > cs.length then none
  else searchAux branches cs i (cs.length - i + 1)

/-- A compiled g-flagged regex object: the pattern plus its mutable
lastIndex. -/
structure GRegex where
  branches : List (List Atom)
  lastIndex : Nat

/-- regex.test(s) on a g-flagged regex: search from lastIndex; on success
lastIndex becomes the match end, on failure it resets to 0. -/
def testG (r : GRegex) (s : String) : Bool × GRegex :=
  match searchFrom r.branches s.data r.lastIndex with
  | some e => (true, { r with lastIndex := e })
  | none => (false, { r with lastIndex := 0 })

def wsPlus : Atom := .plusCls jsWs

def dotWordStar : Atom := .starCls (fun c => c = '.' || isWordChar c)

/-- python.ts PATTERNS.mcpImport. -/
def mcpImportPattern : List (List Atom) :=
  [[.lit "from".data, wsPlus, .lit "mcp".data, dotWordStar, wsPlus, .lit "import".data],
   [.lit "import".data, wsPlus, .lit "mcp".data],
   [.lit "from".data, wsPlus, .lit "fastmcp".data, wsPlus, .lit "import".data]]

/-- python.ts PATTERNS.langGraphImport. -/
def langGraphImportPattern : List (List Atom) :=
  [[.lit "from".data, wsPlus, .lit "langgraph".data, dotWordStar, wsPlus, .lit "import".data],
   [.lit "import".data, wsPlus, .lit "langgraph".data]]

/-- python.ts PATTERNS.crewAiImport. -/
def crewAiImportPattern : List (List Atom) :=
  [[.lit "from".data, wsPlus, .lit "crewai".data, dotWordStar, wsPlus, .lit "import".data],
   [.lit "import".data, wsPlus, .lit "crewai".data]]

/-- python.ts PATTERNS.autoGenImport. -/
def autoGenImportPattern : List (List Atom) :=
  [[.lit "from".data, wsPlus, .lit "autogen".data, dotWordStar, wsPlus, .lit "import".data],
   [.lit "import".data, wsPlus, .lit "autogen".data]]

/-- python.ts PATTERNS.langchainImport. -/
def langchainImportPattern : List (List Atom) :=
  [[.lit "from".data, wsPlus, .lit "langchain".data, dotWordStar, wsPlus, .lit "import".data],
   [.lit "import".data, wsPlus, .lit "langchain".data]]

/-- The shared mutable state of the five import regexes of the
module-level PATTERNS object of python.ts. -/
structure PyImportRegexes where
  mcpImport : GRegex
  langGraphImport : GRegex
  crewAiImport : GRegex
  autoGenImport : GRegex
  langchainImport : GRegex

/-- The PATTERNS object as freshly compiled at module load. -/
def initPyImportRegexes : PyImportRegexes :=
  { mcpImport := ⟨mcpImportPattern, 0⟩
    langGraphImport := ⟨langGraphImportPattern, 0⟩
    crewAiImport := ⟨crewAiImportPattern, 0⟩
    autoGenImport := ⟨autoGenImportPattern, 0⟩
    langchainImport := ⟨langchainImportPattern, 0⟩ }

/-- PythonDetector.detectFramework (python.ts lines 107-114), with the
mutation of the shared regex objects made explicit: each .test call both
reads and updates the corresponding lastIndex, and short-circuiting stops
the chain at the first hit. -/
def pyDetectFramework (st : PyImportRegexes) (content : String) :
    Framework × PyImportRegexes :=
  let (b1, r1) := testG st.mcpImport content
  let st := { st with mcpImport := r1 }
  if b1 then (.mcp, st)
  else
    let (b2, r2) := testG st.langGraphImport content
    let st := { st with langGraphImport := r2 }
    if b2 then (.langraph, st)
    else
      let (b3, r3) := testG st.crewAiImport content
      let st := { st with crewAiImport := r3 }
      if b3 then (.crewai, st)
      else
        let (b4, r4) := testG st.autoGenImport content
        let st := { st with autoGenImport := r4 }
        if b4 then (.autogen, st)
        else
          let (b5, r5) := testG st.langchainImport content
          let st := { st with langchainImport := r5 }
          if b5 then (.custom, st)
          else (.unknown, st)

/-! ## Specification-side formulation of the tokenizer

The specification describes the final step as splitting the prepared text
on whitespace into words; wordsBy is that description: skip separators,
collect maximal separator-free runs. -/

/-- The whitespace-separated words of a character list. -/
def wordsBy (p : Char → Bool) (cs : List Char) : List (List Char) :=
  match cs with
  | [] => []
  | c :: rest =>
    if p c then wordsBy p rest
    else (c :: rest.takeWhile (fun x => !(p x))) ::
      wordsBy p (rest.dropWhile (fun x => !(p x)))
termination_by cs.length
decreasing_by
  · simp_wf
  · simp_wf
    have h := (List.dropWhile_sublist (l := rest) (fun x => !(p x))).length_le
    omega

/-- Tokenizer as the specification words it: insert boundaries at
lower-to-upper transitions and at underscore and hyphen, lowercase, then
split the text into its whitespace-separated words. -/
def tokenizeSpec (text : String) : List String :=
  (wordsBy jsWs (((camelSplit text.data).map usToSpace).map Char.toLower)).map
    (fun w => String.mk w)

instance : IsTrans (Nat × String) keyLe :=
  ⟨by
    intro p q r hpq hqr
    rcases hpq with h | ⟨h, h2⟩ <;> rcases hqr with h3 | ⟨h3, h4⟩ <;>
      unfold keyLe <;> first
      | exact Or.inl (by omega)
      | exact Or.inr ⟨by omega, le_trans h2 h4⟩⟩

instance : IsTotal (Nat × String) keyLe :=
  ⟨by
    intro p q
    rcases Nat.lt_trichotomy p.1 q.1 with h | h | h
    · exact Or.inl (Or.inl h)
    · rcases le_total p.2 q.2 with h2 | h2
      · exact Or.inl (Or.inr ⟨h, h2⟩)
      · exact Or.inr (Or.inr ⟨h.symm, h2⟩)
    · exact Or.inr (Or.inl h)⟩

instance : IsAntisymm (Nat × String) keyLe :=
  ⟨by
    intro p q hpq hqp
    rcases hpq with h | ⟨h, h2⟩ <;> rcases hqp with h3 | ⟨h3, h4⟩ <;>
      first
      | omega
      | exact Prod.ext (by omega) (le_antisymm h2 h4)⟩

instance : IsTrans Tool toolLe :=
  ⟨fun a b c hab hbc =>
    IsTrans.trans (toolSortKey a) (toolSortKey b) (toolSortKey c) hab hbc⟩

instance : IsTotal Tool toolLe :=
  ⟨fun a b => IsTotal.total (toolSortKey a) (toolSortKey b)⟩

instance : IsTrans Agent agentLe := ⟨fun _ _ _ hab hbc => le_trans hab hbc⟩

instance : IsTotal Agent agentLe := ⟨fun a b => le_total a.name b.name⟩

instance : IsTrans McpServer serverLe := ⟨fun _ _ _ hab hbc => le_trans hab hbc⟩

instance : IsTotal McpServer serverLe := ⟨fun a b => le_total a.name b.name⟩

/-! # Theorems -/

/-- Characterisation of splitPred: the first piece is the maximal
separator-free prefix, and the remaining pieces split the text after the
first separator. -/
theorem splitPred_spec (p : Char → Bool) (cs : List Char) :
    splitPred p cs = cs.takeWhile (fun c => !(p c)) ::
      (match cs.dropWhile (fun c => !(p c)) with
        | [] => []
        | _ :: tail => splitPred p tail) := by
  induction cs with
  | nil => rfl
  | cons c rest ih =>
    by_cases hp : p c
    · simp [splitPred, hp]
    · rw [@List.takeWhile_cons_of_pos _ (fun c => !(p c)) c rest (by simp [hp]),
        @List.dropWhile_cons_of_pos _ (fun c => !(p c)) c rest (by simp [hp])]
      simp only [splitPred, hp, if_neg, Bool.false_eq_true, not_false_iff]
      rw [ih]

/-- The head of dropWhile fails the predicate. -/
theorem dropWhile_head_false {α : Type} (p : α → Bool) (l : List α) (d : α)
    (tail : List α) (h : l.dropWhile p = d :: tail) : p d = false := by
  induction l with
  | nil => simp [List.dropWhile] at h
  | cons a as ih =>
    by_cases hp : p a
    · rw [List.dropWhile_cons_of_pos hp] at h; exact ih h
    · rw [List.dropWhile_cons_of_neg hp] at h
      cases h
      simpa using hp

/-- Splitting at every separator and dropping the empty pieces computes
the whitespace-separated words. -/
theorem filter_splitPred (p : Char → Bool) :
    ∀ (n : Nat) (cs : List Char), cs.length ≤ n →
      (splitPred p cs).filter (fun w => !(w.isEmpty)) = wordsBy p cs := by
  intro n
  induction n with
  | zero =>
    intro cs h
    cases cs with
    | nil => simp [splitPred, wordsBy]
    | cons c rest => simp at h
  | succ n ih =>
    intro cs h
    cases cs with
    | nil => simp [splitPred, wordsBy]
    | cons c rest =>
      by_cases hp : p c
      · have h1 : splitPred p (c :: rest) = [] :: splitPred p rest := by
          simp [splitPred, hp]
        have h2 : wordsBy p (c :: rest) = wordsBy p rest := by
          simp [wordsBy, hp]
        rw [h1, h2, List.filter_cons]
        simpa using ih rest (by simpa using Nat.le_of_succ_le_succ (by simpa using h))
      · rw [splitPred_spec p (c :: rest)]
        rw [@List.takeWhile_cons_of_pos _ (fun c => !(p c)) c rest (by simp [hp]),
          @List.dropWhile_cons_of_pos _ (fun c => !(p c)) c rest (by simp [hp])]
        have h2 : wordsBy p (c :: rest) =
            (c :: rest.takeWhile (fun x => !(p x))) ::
              wordsBy p (rest.dropWhile (fun x => !(p x))) := by
          simp [wordsBy, hp]
        rw [h2, List.filter_cons]
        simp only [List.isEmpty_cons, Bool.not_false, if_pos]
        cases hd : rest.dropWhile (fun x => !(p x)) with
        | nil => simp [wordsBy]
        | cons d tail =>
          have hpd : (fun x => !(p x)) d = false := dropWhile_head_false _ rest d tail hd
          have hpd' : p d = true := by simpa using hpd
          have h3 : wordsBy p (d :: tail) = wordsBy p tail := by
            simp [wordsBy, hpd']
          rw [h3]
          have hlen : (d :: tail).length ≤ rest.length := by
            have hs := (List.dropWhile_sublist (l := rest) (fun x => !(p x))).length_le
            rw [hd] at hs
            exact hs
          refine congrArg _ (ih tail ?_)
          simp only [List.length_cons] at hlen h
          omega

/-- Keeping the nonempty strings of the pieces is keeping the nonempty
pieces. -/
theorem filter_map_mk (l : List (List Char)) :
    (l.map (fun w => String.mk w)).filter (fun s => s ≠ "") =
      (l.filter (fun w => !(w.isEmpty))).map (fun w => String.mk w) := by
  induction l with
  | nil => rfl
  | cons w ws ih =>
    cases w with
    | nil => simpa using ih
    | cons c cs =>
      simp only [List.map_cons, List.filter_cons]
      have h1 : (decide (String.mk (c :: cs) ≠ "")) = true := by
        simp [String.ext_iff]
      have h2 : (!(List.isEmpty (c :: cs))) = true := by simp
      rw [h1, h2]
      simp only [if_pos, List.map_cons]
      exact congrArg _ ih

/-- C9: tokenization splits an identifier into lowercase words by
inserting boundaries at lower-to-upper case transitions and at underscore
and hyphen characters, then splitting on whitespace; in particular on
getUserData it gives get, user, data and on LIST_FILES it gives list,
files. -/
theorem C9_tokenize :
    (∀ s : String, tokenize s = tokenizeSpec s) ∧
    tokenize "getUserData" = ["get", "user", "data"] ∧
    tokenize "LIST_FILES" = ["list", "files"] := by
  refine ⟨fun s => ?_, by decide, by decide⟩
  unfold tokenize tokenizeSpec splitWs
  rw [filter_map_mk,
    filter_splitPred jsWs (((camelSplit s.data).map usToSpace).map Char.toLower).length
      _ le_rfl]

/-- The nested conditional of inferPermission computes the first matching
table of the priority list of the specification. -/
theorem classify_priority (A : List String) :
    (match priorityTables.find? (fun tp => matchesKeywords A tp.1) with
      | some tp => tp.2
      | none => Permission.UNKNOWN) =
    (if matchesKeywords A DELETE_KEYWORDS then Permission.DELETE
     else if matchesKeywords A EXECUTE_KEYWORDS then Permission.EXECUTE
     else if matchesKeywords A WRITE_KEYWORDS then Permission.WRITE
     else if matchesKeywords A OUTPUT_KEYWORDS then Permission.OUTPUT
     else if matchesKeywords A READ_KEYWORDS then Permission.READ
     else Permission.UNKNOWN) := by
  cases h1 : matchesKeywords A DELETE_KEYWORDS <;>
    cases h2 : matchesKeywords A EXECUTE_KEYWORDS <;>
      cases h3 : matchesKeywords A WRITE_KEYWORDS <;>
        cases h4 : matchesKeywords A OUTPUT_KEYWORDS <;>
          cases h5 : matchesKeywords A READ_KEYWORDS <;>
            simp [priorityTables, List.find?, h1, h2, h3, h4, h5]

/-- C1: inferPermission tokenizes the name and the optional description,
a token matches a table when it equals, starts with or ends with one of
its stems, the tables are tried in the fixed order DELETE, EXECUTE,
WRITE, OUTPUT, READ, the first table with a matching token wins, no match
gives UNKNOWN; in particular update_and_delete classifies as DELETE. -/
theorem C1_inferPermission_priority :
    (∀ (name : String) (description : Option String),
      inferPermission name description = inferPermissionSpec name description) ∧
    inferPermission "update_and_delete" none = Permission.DELETE := by
  refine ⟨fun name description => ?_, by decide⟩
  unfold inferPermission inferPermissionSpec
  exact (classify_priority _).symm

/-- Deduplication is idempotent for any key function and any initial seen
set. -/
theorem dedupeByKey_idem {α : Type} (key : α → String) :
    ∀ (xs : List α) (seen : List String),
      dedupeByKey key seen (dedupeByKey key seen xs) = dedupeByKey key seen xs := by
  intro xs
  induction xs with
  | nil => intro seen; rfl
  | cons x xs ih =>
    intro seen
    by_cases h : key x ∈ seen
    · simp [dedupeByKey, h, ih]
    · simp [dedupeByKey, h, ih]

/-- Deduplication only drops elements. -/
theorem mem_of_mem_dedupeByKey {α : Type} (key : α → String) :
    ∀ (xs : List α) (seen : List String) (y : α),
      y ∈ dedupeByKey key seen xs → y ∈ xs := by
  intro xs
  induction xs with
  | nil => intro seen y h; simp [dedupeByKey] at h
  | cons x xs ih =>
    intro seen y h
    by_cases hc : key x ∈ seen
    · simp only [dedupeByKey] at h
      rw [if_pos (show seen.contains (key x) = true by simpa using hc)] at h
      exact List.mem_cons_of_mem x (ih _ y h)
    · simp only [dedupeByKey] at h
      rw [if_neg (show ¬ seen.contains (key x) = true by simpa using hc)] at h
      rcases List.mem_cons.1 h with h1 | h1
      · exact h1 ▸ List.mem_cons_self x xs
      · exact List.mem_cons_of_mem x (ih _ y h1)

/-- C5: deduplication of tools (name and source), agents (name and
source) and servers (name) is idempotent. -/
theorem C5_dedupe_idempotent :
    (∀ tools : List Tool,
      deduplicateTools (deduplicateTools tools) = deduplicateTools tools) ∧
    (∀ agents : List Agent,
      deduplicateAgents (deduplicateAgents agents) = deduplicateAgents agents) ∧
    (∀ servers : List McpServer,
      deduplicateMcpServers (deduplicateMcpServers servers) = deduplicateMcpServers servers) := by
  refine ⟨fun tools => ?_, fun agents => ?_, fun servers => ?_⟩ <;>
    first
    | exact dedupeByKey_idem _ tools []
    | exact dedupeByKey_idem _ agents []
    | exact dedupeByKey_idem _ servers []

/-- Bumping one framework key adds one to the value total. -/
theorem assocTotal_bumpAssoc (m : List (String × Nat)) (k : String) :
    assocTotal (bumpAssoc m k) = assocTotal m + 1 := by
  induction m with
  | nil => rfl
  | cons kv rest ih =>
    by_cases h : kv.1 = k
    · simp [bumpAssoc, h, assocTotal]
      omega
    · simp [bumpAssoc, h, assocTotal] at ih ⊢
      omega

/-- The by_framework fold adds the list length to the value total. -/
theorem assocTotal_foldl (tools : List Tool) :
    ∀ init : List (String × Nat),
      assocTotal (tools.foldl (fun m t => bumpAssoc m (frameworkTag t.framework)) init) =
        assocTotal init + tools.length := by
  induction tools with
  | nil => intro init; simp
  | cons t ts ih =>
    intro init
    rw [List.foldl_cons, ih, assocTotal_bumpAssoc]
    simp only [List.length_cons]
    omega

/-- Bumping one permission bucket adds one to the bucket total. -/
theorem permTotal_bumpPermission (m : PermissionCounts) (p : Permission) :
    permTotal (bumpPermission m p) = permTotal m + 1 := by
  cases p <;> simp [bumpPermission, permTotal] <;> omega

/-- The by_permission fold adds the list length to the bucket total. -/
theorem permTotal_foldl (tools : List Tool) :
    ∀ init : PermissionCounts,
      permTotal (tools.foldl (fun m t => bumpPermission m t.permission) init) =
        permTotal init + tools.length := by
  induction tools with
  | nil => intro init; simp
  | cons t ts ih =>
    intro init
    rw [List.foldl_cons, ih, permTotal_bumpPermission]
    simp only [List.length_cons]
    omega

/-- Bumping one risk bucket adds one to the bucket total. -/
theorem riskTotal_bumpRisk (m : RiskCounts) (r : RiskLevel) :
    riskTotal (bumpRisk m r) = riskTotal m + 1 := by
  cases r <;> simp [bumpRisk, riskTotal] <;> omega

/-- The by_risk fold adds the list length to the bucket total. -/
theorem riskTotal_foldl (tools : List Tool) :
    ∀ init : RiskCounts,
      riskTotal (tools.foldl (fun m t => bumpRisk m t.risk) init) =
        riskTotal init + tools.length := by
  induction tools with
  | nil => intro init; simp
  | cons t ts ih =>
    intro init
    rw [List.foldl_cons, ih, riskTotal_bumpRisk]
    simp only [List.length_cons]
    omega

/-- C4: the summary counts of an assembled manifest equal the
cardinalities of its final deduplicated, filtered collections, and the
by_framework, by_permission and by_risk buckets each sum to total_tools. -/
theorem C4_summary_cardinalities :
    ∀ (result : DetectorResult) (frameworkFilter : Option String)
      (riskFilter : Option RiskLevel) (path : String) (n dur : Nat) (now : String),
      (createManifest (applyScanFilters result frameworkFilter riskFilter)
          path n dur now).summary.total_tools =
        (createManifest (applyScanFilters result frameworkFilter riskFilter)
          path n dur now).tools.length ∧
      (createManifest (applyScanFilters result frameworkFilter riskFilter)
          path n dur now).summary.total_agents =
        (createManifest (applyScanFilters result frameworkFilter riskFilter)
          path n dur now).agents.length ∧
      (createManifest (applyScanFilters result frameworkFilter riskFilter)
          path n dur now).summary.total_mcp_servers =
        (createManifest (applyScanFilters result frameworkFilter riskFilter)
          path n dur now).mcp_servers.length ∧
      assocTotal (createManifest (applyScanFilters result frameworkFilter riskFilter)
          path n dur now).summary.by_framework =
        (createManifest (applyScanFilters result frameworkFilter riskFilter)
          path n dur now).summary.total_tools ∧
      permTotal (createManifest (applyScanFilters result frameworkFilter riskFilter)
          path n dur now).summary.by_permission =
        (createManifest (applyScanFilters result frameworkFilter riskFilter)
          path n dur now).summary.total_tools ∧
      riskTotal (createManifest (applyScanFilters result frameworkFilter riskFilter)
          path n dur now).summary.by_risk =
        (createManifest (applyScanFilters result frameworkFilter riskFilter)
          path n dur now).summary.total_tools := by
  intro result frameworkFilter riskFilter path n dur now
  simp only [createManifest, createSummary]
  refine ⟨?_, ?_, ?_, ?_, ?_, ?_⟩
  · exact ((List.perm_insertionSort toolLe _).length_eq).symm
  · exact ((List.perm_insertionSort agentLe _).length_eq).symm
  · exact ((List.perm_insertionSort serverLe _).length_eq).symm
  · simpa [assocTotal] using assocTotal_foldl (applyScanFilters result frameworkFilter riskFilter).tools []
  · simpa [permTotal] using
      permTotal_foldl (applyScanFilters result frameworkFilter riskFilter).tools ⟨0, 0, 0, 0, 0, 0⟩
  · simpa [riskTotal] using
      riskTotal_foldl (applyScanFilters result frameworkFilter riskFilter).tools ⟨0, 0, 0⟩

/-- C6: manifest tools are a permutation of the input sorted by risk rank
HIGH, MEDIUM, LOW with name as tie-break; agents and servers are sorted
by name; and the risk-name key sequence of the sorted tools is the same
for any input ordering. -/
theorem C6_manifest_ordering :
    ∀ (result : DetectorResult) (path : String) (n dur : Nat) (now : String),
      (createManifest result path n dur now).tools.Perm result.tools ∧
      List.Sorted toolLe (createManifest result path n dur now).tools ∧
      (createManifest result path n dur now).agents.Perm result.agents ∧
      List.Sorted agentLe (createManifest result path n dur now).agents ∧
      (createManifest result path n dur now).mcp_servers.Perm result.mcpServers ∧
      List.Sorted serverLe (createManifest result path n dur now).mcp_servers ∧
      ∀ (result2 : DetectorResult), result.tools.Perm result2.tools →
        (createManifest result2 path n dur now).tools.map toolSortKey =
          (createManifest result path n dur now).tools.map toolSortKey := by
  intro result path n dur now
  refine ⟨List.perm_insertionSort toolLe _, List.sorted_insertionSort toolLe _,
    List.perm_insertionSort agentLe _, List.sorted_insertionSort agentLe _,
    List.perm_insertionSort serverLe _, List.sorted_insertionSort serverLe _,
    fun result2 hperm => ?_⟩
  have hp : ((createManifest result2 path n dur now).tools.map toolSortKey).Perm
      ((createManifest result path n dur now).tools.map toolSortKey) :=
    (((List.perm_insertionSort toolLe result2.tools).trans hperm.symm).trans
      (List.perm_insertionSort toolLe result.tools).symm).map toolSortKey
  have hs2 : List.Sorted keyLe ((createManifest result2 path n dur now).tools.map toolSortKey) :=
    List.pairwise_map.mpr (List.sorted_insertionSort toolLe result2.tools)
  have hs1 : List.Sorted keyLe ((createManifest result path n dur now).tools.map toolSortKey) :=
    List.pairwise_map.mpr (List.sorted_insertionSort toolLe result.tools)
  exact List.eq_of_perm_of_sorted hp hs2 hs1

/-- Witness for C6: two permuted two-tool inputs produce the same sorted
key sequence. -/
theorem C6_witness :
    (createManifest ⟨[createToolDefault "a" "s" 1, createToolDefault "b" "s" 1],
        [], []⟩ "/p" 2 7 "now").tools.map toolSortKey =
      (createManifest ⟨[createToolDefault "b" "s" 1, createToolDefault "a" "s" 1],
        [], []⟩ "/p" 2 7 "now").tools.map toolSortKey := by
  exact (C6_manifest_ordering
      ⟨[createToolDefault "b" "s" 1, createToolDefault "a" "s" 1], [], []⟩
      "/p" 2 7 "now").2.2.2.2.2.2
    ⟨[createToolDefault "a" "s" 1, createToolDefault "b" "s" 1], [], []⟩
    (List.Perm.swap (createToolDefault "a" "s" 1) (createToolDefault "b" "s" 1) [])

/-- Tools surviving the dedup and filter steps of the scan command come from
the raw result. -/
theorem mem_applyScanFilters_tools (result : DetectorResult)
    (frameworkFilter : Option String) (riskFilter : Option RiskLevel) (t : Tool)
    (h : t ∈ (applyScanFilters result frameworkFilter riskFilter).tools) :
    t ∈ result.tools := by
  have h1 : t ∈ deduplicateTools result.tools := by
    unfold applyScanFilters at h
    cases riskFilter with
    | none =>
      cases frameworkFilter with
      | none => exact h
      | some fw => exact (List.mem_filter.1 h).1
    | some r =>
      have h2 := (List.mem_filter.1 h).1
      cases frameworkFilter with
      | none => exact h2
      | some fw => exact (List.mem_filter.1 h2).1
  exact mem_of_mem_dedupeByKey _ _ _ _ h1

/-- C3: risk equals the fixed permission-to-risk table applied to
permission for every tool any detector constructor emits, and the
property survives dedup, filtering and sorting into the final manifest. -/
theorem C3_risk_is_function_of_permission :
    (∀ ds name rel line fw, (pyCreateToolFromName ds name rel line fw).risk =
      inferRisk (pyCreateToolFromName ds name rel line fw).permission) ∧
    (∀ name rel line fw d, (tsCreateToolFromName name rel line fw d).risk =
      inferRisk (tsCreateToolFromName name rel line fw d).permission) ∧
    (∀ name rel line v f, (goCapabilityTool name rel line v f).risk =
      inferRisk (goCapabilityTool name rel line v f).permission) ∧
    (∀ name rel line, (goRegistrationTool name rel line).risk =
      inferRisk (goRegistrationTool name rel line).permission) ∧
    (∀ name rel line, (goFunctionTool name rel line).risk =
      inferRisk (goFunctionTool name rel line).permission) ∧
    (∀ name src line, (createToolDefault name src line).risk =
      inferRisk (createToolDefault name src line).permission) ∧
    (∀ (result : DetectorResult) (frameworkFilter : Option String)
      (riskFilter : Option RiskLevel) (path : String) (n dur : Nat) (now : String),
      (∀ t ∈ result.tools, t.risk = inferRisk t.permission) →
      ∀ t ∈ (createManifest (applyScanFilters result frameworkFilter riskFilter)
          path n dur now).tools,
        t.risk = inferRisk t.permission) := by
  refine ⟨fun ds name rel line fw => rfl, fun name rel line fw d => rfl,
    fun name rel line v f => rfl, fun name rel line => rfl,
    fun name rel line => rfl, fun name src line => rfl,
    fun result frameworkFilter riskFilter path n dur now hinv t ht => ?_⟩
  have h1 : t ∈ (applyScanFilters result frameworkFilter riskFilter).tools :=
    (List.perm_insertionSort toolLe _).mem_iff.1 ht
  exact hinv t (mem_applyScanFilters_tools result frameworkFilter riskFilter t h1)

/-- Witness for C3 at a concrete python-detector tool flowing through the
pipeline. -/
theorem C3_witness :
    (pyCreateToolFromName [] "delete_user" "a.py" 3 Framework.custom).risk =
      inferRisk (pyCreateToolFromName [] "delete_user" "a.py" 3 Framework.custom).permission := by
  have hmem : pyCreateToolFromName [] "delete_user" "a.py" 3 Framework.custom ∈
      (createManifest (applyScanFilters
        { tools := [pyCreateToolFromName [] "delete_user" "a.py" 3 Framework.custom],
          agents := [], mcpServers := [] } none none) "/p" 1 5 "now").tools := by
    show pyCreateToolFromName [] "delete_user" "a.py" 3 Framework.custom ∈
      [pyCreateToolFromName [] "delete_user" "a.py" 3 Framework.custom]
    exact List.mem_singleton.mpr rfl
  exact C3_risk_is_function_of_permission.2.2.2.2.2.2
    { tools := [pyCreateToolFromName [] "delete_user" "a.py" 3 Framework.custom],
      agents := [], mcpServers := [] } none none "/p" 1 5 "now"
    (fun t ht => by rw [List.mem_singleton.1 ht]; rfl)
    (pyCreateToolFromName [] "delete_user" "a.py" 3 Framework.custom) hmem

/-- C2 evaluation: the framework-attribution pass of the python detector
is not a function of the file content alone.  The module-level PATTERNS
regexes carry the g flag, so .test advances the shared lastIndex: the
first call on a file reading import mcp attributes mcp, and a second call
on the very same content attributes unknown because the mcpImport regex
resumes searching at offset 10. -/
theorem C2_framework_attribution_state_leak :
    (pyDetectFramework initPyImportRegexes "import mcp").1 = Framework.mcp ∧
    (pyDetectFramework (pyDetectFramework initPyImportRegexes "import mcp").2
        "import mcp").1 = Framework.unknown := by
  exact ⟨by decide, by decide⟩

/-- C7: a file named mcp.json whose content declares the single server fs
with command npx and args x yields exactly that one server — command npx,
the raw args carried over — and no tools or agents. -/
theorem C7_mcp_json_scenario :
    mcpConfigDetect
      ⟨"mcp.json", "mcp.json", ".json",
        "\x7b\x22mcpServers\x22: \x7b\x22fs\x22: \x7b\x22command\x22: \x22npx\x22, \x22args\x22: [\x22x\x22]\x7d\x7d\x7d"⟩ =
      ⟨[], [],
        [⟨"fs", JsonVal.str "npx", some (JsonVal.arr [JsonVal.str "x"]), none,
          "mcp.json", none⟩]⟩ := by
  rfl

/-- C8: a recognized configuration file whose content is not valid JSON
produces the empty batch, and so does valid JSON carrying neither a
mcpServers nor a servers member. -/
theorem C8_malformed_config_empty :
    (∀ file : FileInfo, parseJson file.content = none →
      mcpConfigDetect file = emptyResult) ∧
    (∀ (file : FileInfo) (j : JsonVal), parseJson file.content = some j →
      getField j "mcpServers" = none → getField j "servers" = none →
      mcpConfigDetect file = emptyResult) := by
  constructor
  · intro file h
    unfold mcpConfigDetect
    rw [h]
    split <;> rfl
  · intro file j hj h1 h2
    unfold mcpConfigDetect
    rw [hj]
    split
    · rfl
    · simp only [h1, h2, orTruthy, entriesOf, emptyResult, List.filterMap_nil]

/-- Witness for C8 at a concrete unparseable configuration file. -/
theorem C8_witness :
    parseJson "\x7bnot json" = none ∧
    mcpConfigDetect ⟨"x", "mcp.json", ".json", "\x7bnot json"⟩ = emptyResult := by
  exact ⟨rfl, C8_malformed_config_empty.1 _ rfl⟩

/-- C10: parseServerConfig yields no server when neither the command nor
the url member is truthy; an emitted server always carries a truthy
command — a string command is never empty — and when the command member
is not truthy the emitted command is exactly the value of the url member. -/
theorem C10_server_command_or_url :
    ∀ (name : String) (config : JsonVal) (rel : String),
      (truthyField config "command" = false → truthyField config "url" = false →
        parseServerConfig name config rel = none) ∧
      (∀ server : McpServer, parseServerConfig name config rel = some server →
        jsTruthy server.command = true ∧
        (∀ s : String, server.command = JsonVal.str s → s ≠ "") ∧
        (truthyField config "command" = false →
          getField config "url" = some server.command)) := by
  intro name config rel
  cases hc : getField config "command" with
  | none =>
    cases hu : getField config "url" with
    | none =>
      refine ⟨fun _ _ => by simp [parseServerConfig, hc, hu], fun server h => ?_⟩
      simp [parseServerConfig, hc, hu] at h
    | some u =>
      cases htu : jsTruthy u with
      | false =>
        refine ⟨fun _ _ => by simp [parseServerConfig, hc, hu, htu], fun server h => ?_⟩
        simp [parseServerConfig, hc, hu, htu] at h
      | true =>
        refine ⟨fun _ h2 => ?_, fun server h => ?_⟩
        · simp [truthyField, hu, htu] at h2
        · simp [parseServerConfig, hc, hu, htu] at h
          subst h
          refine ⟨htu, fun s hs => ?_, fun _ => rfl⟩
          have hs2 : u = JsonVal.str s := hs
          rw [hs2] at htu
          simpa [jsTruthy] using htu
  | some v =>
    cases htv : jsTruthy v with
    | true =>
      refine ⟨fun h1 _ => ?_, fun server h => ?_⟩
      · simp [truthyField, hc, htv] at h1
      · simp [parseServerConfig, hc, htv] at h
        subst h
        refine ⟨htv, fun s hs => ?_, fun h1 => ?_⟩
        · have hs2 : v = JsonVal.str s := hs
          rw [hs2] at htv
          simpa [jsTruthy] using htv
        · simp [truthyField, hc, htv] at h1
    | false =>
      cases hu : getField config "url" with
      | none =>
        refine ⟨fun _ _ => by simp [parseServerConfig, hc, hu, htv], fun server h => ?_⟩
        simp [parseServerConfig, hc, hu, htv] at h
      | some u =>
        cases htu : jsTruthy u with
        | false =>
          refine ⟨fun _ _ => by simp [parseServerConfig, hc, hu, htv, htu],
            fun server h => ?_⟩
          simp [parseServerConfig, hc, hu, htv, htu] at h
        | true =>
          refine ⟨fun _ h2 => ?_, fun server h => ?_⟩
          · simp [truthyField, hu, htu] at h2
          · simp [parseServerConfig, hc, hu, htv, htu] at h
            subst h
            refine ⟨htu, fun s hs => ?_, fun _ => rfl⟩
            have hs2 : u = JsonVal.str s := hs
            rw [hs2] at htu
            simpa [jsTruthy] using htu

/-- Witness for C10: a config with neither member yields no server, and
the url-form config emits its url as a truthy command. -/
theorem C10_witness :
    parseServerConfig "a" (JsonVal.obj []) "p" = none ∧
    jsTruthy (JsonVal.str "http://x") = true := by
  constructor
  · exact (C10_server_command_or_url "a" (JsonVal.obj []) "p").1 rfl rfl
  · exact ((C10_server_command_or_url "fs"
      (JsonVal.obj [("url", JsonVal.str "http://x")]) "mcp.json").2
      ⟨"fs", JsonVal.str "http://x", none, none, "mcp.json", none⟩ rfl).1

end AgentTrace
